import Mathlib

/-!
Verification of the quantdl operator engine (wide-table operators).

A wide table (a polars `DataFrame` in the source) has a first date column
and a list of named value columns holding nullable floats.  The embedding
carries the date column as `dates` and the value columns as `cols`; a
nullable float cell is `Option ℚ` (exact arithmetic in place of IEEE
floats; the source never relies on float rounding in the properties
treated here).
-/

namespace QuantDL

/-- A nullable numeric cell (`null`/`NaN` is `none`). -/
abbrev Cell := Option ℚ

/-- Wide table: `dates` is the first (date) column, `cols` the named value
columns, cell type `α`. -/
structure WideTable (α : Type) where
  dates : List Int
  cols : List (String × List α)
  deriving Repr, DecidableEq

/-- Number of rows (`DataFrame.height`): the length of the date column. -/
def height (t : WideTable Cell) : Nat :=
  t.dates.length

/-- Models `df[c]` column lookup by name; `none` models the
`ColumnNotFoundError` the source raises for a missing column. -/
def lookupCol (t : WideTable α) (name : String) : Option (List α) :=
  (t.cols.find? (fun p => p.1 = name)).map Prod.snd

/-- Errors raised by the operator-engine functions: a missing column
(`ColumnNotFoundError`), a length mismatch in a `select` combining a
series of the wrong height (`ShapeError`), and the
`ValueError("... requires at least 2 inputs")` arity check. -/
inductive OpError where
  | columnNotFound
  | lengthMismatch
  | arity
  deriving Repr, DecidableEq

/-! ## trade_when (transformational.py, lines 128-182)

The source iterates row by row per value column, carrying `prev_alpha`:
exit signal strictly positive wins and emits null, else a strictly
positive entry trigger emits the alpha cell, else the previous output is
held.  Null signals never trigger (`exit_v is not None and exit_v > 0`).
-/

/-- Models `sig is not None and sig > 0`: a null signal never triggers. -/
def isPos (c : Cell) : Bool :=
  match c with
  | some v => decide (0 < v)
  | none => false

/-- One row of the `trade_when` loop body: `prev` is `prev_alpha`. -/
def tradeStep (prev t a e : Cell) : Cell :=
  if isPos e then none
  else if isPos t then a
  else prev

/-- The row loop of `trade_when` for one column, carrying `prev_alpha`.
In every branch of the source the updated `prev_alpha` equals the value
just emitted, so the carried state is the emitted cell itself. -/
def tradeWhenGo (prev : Cell) : List Cell → List Cell → List Cell → List Cell
  | t :: ts, a :: as_, e :: es =>
      let o := tradeStep prev t a e
      o :: tradeWhenGo o ts as_ es
  | _, _, _ => []

/-- Models `trade_when` for one value column: initial `prev_alpha` is null. -/
def tradeWhenCol (tv av ev : List Cell) : List Cell :=
  tradeWhenGo none tv av ev

/-- Table-level `trade_when`: each value column of `trigger` is paired by
name with the matching columns of `alpha` and `exit_trigger`; the date
column of `trigger` is passed through. -/
def trade_when (trigger alpha exit_trigger : WideTable Cell) :
    Except OpError (WideTable Cell) := do
  let cs ← trigger.cols.mapM (fun p => do
    match lookupCol alpha p.1, lookupCol exit_trigger p.1 with
    | some av, some ev => Except.ok (p.1, tradeWhenCol p.2 av ev)
    | _, _ => Except.error OpError.columnNotFound)
  Except.ok ⟨trigger.dates, cs⟩

lemma tradeWhenGo_get? (tv : List Cell) :
    ∀ (av ev : List Cell) (prev : Cell) (i : Nat),
      av.length = tv.length → ev.length = tv.length → i < tv.length →
      (tradeWhenGo prev tv av ev).get? i =
        some (if isPos (ev.getD i none) then none
          else if isPos (tv.getD i none) then av.getD i none
          else if i = 0 then prev
          else (tradeWhenGo prev tv av ev).getD (i - 1) none) := by
  induction tv with
  | nil =>
      intro av ev prev i _ _ hi
      simp at hi
  | cons t ts ih =>
      intro av ev prev i hla hle hi
      match av, ev with
      | [], _ => simp at hla
      | _ :: _, [] => simp at hle
      | a :: as_, e :: es =>
        simp only [List.length_cons, Nat.succ.injEq] at hla hle
        match i with
        | 0 =>
            simp [tradeWhenGo, tradeStep]
        | Nat.succ j =>
            have hj : j < ts.length := by
              simpa using Nat.lt_of_succ_lt_succ hi
            have hrec := ih as_ es (tradeStep prev t a e) j hla hle hj
            simp only [tradeWhenGo, List.get?_cons_succ, List.getD_cons_succ,
              Nat.succ_sub_one, Nat.succ_ne_zero, if_false]
            rw [hrec]
            split_ifs with h1 h2 h3
            · rfl
            · rfl
            · simp [h3]
            · obtain ⟨k, rfl⟩ : ∃ k, j = k + 1 := ⟨j - 1, by omega⟩
              simp [List.getD_cons_succ]

/-- C3: for every entity column, `trade_when` is the row-by-row
recurrence: at each row `i`, a strictly positive exit signal yields null,
else a strictly positive entry trigger yields the alpha cell at that row,
else the output equals the previous row's output (null at row 0), with
exit taking priority over entry. -/
theorem trade_when_recurrence (tv av ev : List Cell)
    (hla : av.length = tv.length) (hle : ev.length = tv.length)
    (i : Nat) (hi : i < tv.length) :
    (tradeWhenCol tv av ev).get? i =
      some (if isPos (ev.getD i none) then none
        else if isPos (tv.getD i none) then av.getD i none
        else if i = 0 then none
        else (tradeWhenCol tv av ev).getD (i - 1) none) :=
  tradeWhenGo_get? tv av ev none i hla hle hi

/-- Witness for C3: the spec scenario entry=[0,1,0,0,0], alpha=[5,6,7,8,9],
exit=[0,0,0,1,0] produces [null,6,6,null,null]; the entry row is checked
through the recurrence theorem. -/
theorem trade_when_recurrence_witness :
    tradeWhenCol [some 0, some 1, some 0, some 0, some 0]
        [some 5, some 6, some 7, some 8, some 9]
        [some 0, some 0, some 0, some 1, some 0] =
      [none, some 6, some 6, none, none] ∧
    (tradeWhenCol [some 0, some 1, some 0, some 0, some 0]
        [some 5, some 6, some 7, some 8, some 9]
        [some 0, some 0, some 0, some 1, some 0]).get? 1 = some (some 6) :=
  ⟨by decide,
   (trade_when_recurrence
      [some 0, some 1, some 0, some 0, some 0]
      [some 5, some 6, some 7, some 8, some 9]
      [some 0, some 0, some 0, some 1, some 0]
      rfl rfl 1 (by decide)).trans (by decide)⟩

/-- C9: a null entry or exit signal never triggers: when neither the exit
nor the entry signal at row `i` is a strictly positive value (null or
non-positive), the output at row `i` is the previous row's output (null
at row 0). -/
theorem trade_when_null_signals (tv av ev : List Cell)
    (hla : av.length = tv.length) (hle : ev.length = tv.length)
    (i : Nat) (hi : i < tv.length)
    (hexit : ev.getD i none = none ∨ ∃ v, ev.getD i none = some v ∧ v ≤ 0)
    (hentry : tv.getD i none = none ∨ ∃ v, tv.getD i none = some v ∧ v ≤ 0) :
    (tradeWhenCol tv av ev).get? i =
      some (if i = 0 then none
        else (tradeWhenCol tv av ev).getD (i - 1) none) := by
  have he : isPos (ev.getD i none) = false := by
    rcases hexit with h | ⟨v, hv, hvle⟩
    · rw [h]; rfl
    · rw [hv]
      simp only [isPos, decide_eq_false_iff_not, not_lt]
      exact hvle
  have ht : isPos (tv.getD i none) = false := by
    rcases hentry with h | ⟨v, hv, hvle⟩
    · rw [h]; rfl
    · rw [hv]
      simp only [isPos, decide_eq_false_iff_not, not_lt]
      exact hvle
  have hrec := tradeWhenGo_get? tv av ev none i hla hle hi
  rw [tradeWhenCol, hrec, he, ht]
  simp

/-- Witness for C9: with a non-null first entry and null signals at row 1,
row 1 holds row 0's output. -/
theorem trade_when_null_signals_witness :
    (tradeWhenCol [some 1, none] [some 7, some 8] [none, none]).get? 1 =
      some (some 7) :=
  (trade_when_null_signals [some 1, none] [some 7, some 8] [none, none]
      rfl rfl 1 (by decide) (Or.inl rfl) (Or.inl rfl)).trans (by decide)

/-! ## Arithmetic operators (arithmetic.py)

`add`/`subtract`/`divide`/`min`/`max` build their result with
`args[0].select(date_col, <expr per value column of args[0]>)`: the date
column and the column-name list always come from the first input; the
other inputs contribute raw series fetched by name (`df[c]`).  No date
axis is ever compared.  A polars `select` combines a series with a column
of the frame positionally when the lengths agree, broadcasts a length-1
series, and raises a shape error otherwise. -/

/-- Series/height alignment of a polars `select`: equal length passes
through, a unit-length series broadcasts, anything else is a shape
error (`none`). -/
def alignSeries (h : Nat) (s : List Cell) : Option (List Cell) :=
  if s.length = h then some s
  else if s.length = 1 then some (List.replicate h (s.getD 0 none))
  else none

/-- Models `x + y` on nullable cells: null propagates. -/
def cellAdd (a b : Cell) : Cell :=
  match a, b with
  | some x, some y => some (x + y)
  | _, _ => none

/-- Models `x.fill_null(0) + y.fill_null(0)` (the `filter=True` branch). -/
def cellAddFilter (a b : Cell) : Cell :=
  some (a.getD 0 + b.getD 0)

/-- Models `x - y` on nullable cells: null propagates. -/
def cellSub (a b : Cell) : Cell :=
  match a, b with
  | some x, some y => some (x - y)
  | _, _ => none

/-- Models `x.fill_null(0) - y.fill_null(0)` (the `filter=True` branch). -/
def cellSubFilter (a b : Cell) : Cell :=
  some (a.getD 0 - b.getD 0)

/-- Models `pl.when(y != 0).then(x / y).otherwise(None)`: a null or zero
denominator yields null; a null numerator propagates. -/
def divideCell (a b : Cell) : Cell :=
  match b with
  | none => none
  | some bv => if bv = 0 then none else a.map (fun av => av / bv)

/-- The column loop of a binary cellwise `select`: for each value column
of the first frame, fetch the same-named column of `y` (missing column:
`ColumnNotFoundError`), align it to the first frame's height, and combine
cellwise. -/
def zipFramesCols (f : Cell → Cell → Cell) (h : Nat) (y : WideTable Cell) :
    List (String × List Cell) → Except OpError (List (String × List Cell))
  | [] => Except.ok []
  | (c, xs) :: rest =>
    match lookupCol y c with
    | none => Except.error OpError.columnNotFound
    | some ys =>
      match alignSeries h ys with
      | none => Except.error OpError.lengthMismatch
      | some ys2 =>
        match zipFramesCols f h y rest with
        | Except.error e => Except.error e
        | Except.ok tail => Except.ok ((c, List.zipWith f xs ys2) :: tail)

/-- Binary cellwise `select` over the first frame's date axis and column
set. -/
def zipFrames (f : Cell → Cell → Cell) (x y : WideTable Cell) :
    Except OpError (WideTable Cell) :=
  match zipFramesCols f (height x) y x.cols with
  | Except.error e => Except.error e
  | Except.ok cs => Except.ok ⟨x.dates, cs⟩

/-- The fold `result = args[0]; for df in args[1:]: result = select(...)`
of `add`. -/
def addFold (filter : Bool) (acc : WideTable Cell) :
    List (WideTable Cell) → Except OpError (WideTable Cell)
  | [] => Except.ok acc
  | df :: rest =>
    match zipFrames (if filter then cellAddFilter else cellAdd) acc df with
    | Except.error e => Except.error e
    | Except.ok r => addFold filter r rest

/-- Models `add(*args, filter=False)`: fewer than 2 inputs raise
`ValueError("add requires at least 2 inputs")`. -/
def add (args : List (WideTable Cell)) (filter : Bool) :
    Except OpError (WideTable Cell) :=
  if args.length < 2 then Except.error OpError.arity
  else
    match args with
    | [] => Except.error OpError.arity
    | x :: rest => addFold filter x rest

/-- Models `subtract(x, y, filter=False)`. -/
def subtract (x y : WideTable Cell) (filter : Bool) :
    Except OpError (WideTable Cell) :=
  zipFrames (if filter then cellSubFilter else cellSub) x y

/-- Models `divide(x, y)`. -/
def divide (x y : WideTable Cell) : Except OpError (WideTable Cell) :=
  zipFrames divideCell x y

/-- Models `pl.max_horizontal`: maximum of the non-null cells, null when all are
null. -/
def maxHorizontal (cells : List Cell) : Cell :=
  cells.foldl (fun acc c =>
    match acc, c with
    | some a, some b => some (max a b)
    | some a, none => some a
    | none, some b => some b
    | none, none => none) none

/-- Models `pl.min_horizontal`: minimum of the non-null cells, null when all are
null. -/
def minHorizontal (cells : List Cell) : Cell :=
  cells.foldl (fun acc c =>
    match acc, c with
    | some a, some b => some (min a b)
    | some a, none => some a
    | none, some b => some b
    | none, none => none) none

/-- Models `df[c]` for one frame followed by the `select` alignment. -/
def fetchSeries (h : Nat) (c : String) (df : WideTable Cell) :
    Except OpError (List Cell) :=
  match lookupCol df c with
  | none => Except.error OpError.columnNotFound
  | some ys =>
    match alignSeries h ys with
    | none => Except.error OpError.lengthMismatch
    | some ys2 => Except.ok ys2

/-- Models `[df[c] for df in args]`. -/
def fetchAll (h : Nat) (c : String) :
    List (WideTable Cell) → Except OpError (List (List Cell))
  | [] => Except.ok []
  | df :: rest =>
    match fetchSeries h c df with
    | Except.error e => Except.error e
    | Except.ok s =>
      match fetchAll h c rest with
      | Except.error e => Except.error e
      | Except.ok ss => Except.ok (s :: ss)

/-- The column loop of `min`/`max`: one horizontal reduction per value
column of `args[0]`, over the series of all inputs. -/
def horizontalCols (g : List Cell → Cell) (h : Nat)
    (args : List (WideTable Cell)) :
    List (String × List Cell) → Except OpError (List (String × List Cell))
  | [] => Except.ok []
  | (c, _) :: rest =>
    match fetchAll h c args with
    | Except.error e => Except.error e
    | Except.ok series =>
      match horizontalCols g h args rest with
      | Except.error e => Except.error e
      | Except.ok tail =>
        Except.ok
          ((c, (List.range h).map
              (fun i => g (series.map (fun s => s.getD i none)))) :: tail)

/-- Models `max(*args)`: fewer than 2 inputs raise
`ValueError("max requires at least 2 inputs")`. -/
def max (args : List (WideTable Cell)) : Except OpError (WideTable Cell) :=
  if args.length < 2 then Except.error OpError.arity
  else
    match args with
    | [] => Except.error OpError.arity
    | x :: _ =>
      match horizontalCols maxHorizontal (height x) args x.cols with
      | Except.error e => Except.error e
      | Except.ok cs => Except.ok ⟨x.dates, cs⟩

/-- Models `min(*args)`: fewer than 2 inputs raise
`ValueError("min requires at least 2 inputs")`. -/
def min (args : List (WideTable Cell)) : Except OpError (WideTable Cell) :=
  if args.length < 2 then Except.error OpError.arity
  else
    match args with
    | [] => Except.error OpError.arity
    | x :: _ =>
      match horizontalCols minHorizontal (height x) args x.cols with
      | Except.error e => Except.error e
      | Except.ok cs => Except.ok ⟨x.dates, cs⟩

lemma fetchSeries_ne_arity (h : Nat) (c : String) (df : WideTable Cell) :
    fetchSeries h c df ≠ Except.error OpError.arity := by
  unfold fetchSeries
  cases lookupCol df c with
  | none => simp
  | some ys =>
    cases ha : alignSeries h ys with
    | none => simp [ha]
    | some ys2 => simp [ha]

lemma fetchAll_ne_arity (h : Nat) (c : String) (args : List (WideTable Cell)) :
    fetchAll h c args ≠ Except.error OpError.arity := by
  induction args with
  | nil => simp [fetchAll]
  | cons df rest ih =>
    unfold fetchAll
    cases hf : fetchSeries h c df with
    | error e =>
      have := fetchSeries_ne_arity h c df
      rw [hf] at this
      simpa using this
    | ok s =>
      cases ha : fetchAll h c rest with
      | error e =>
        rw [ha] at ih
        simpa using ih
      | ok ss => simp

lemma horizontalCols_ne_arity (g : List Cell → Cell) (h : Nat)
    (args : List (WideTable Cell)) (cols : List (String × List Cell)) :
    horizontalCols g h args cols ≠ Except.error OpError.arity := by
  induction cols with
  | nil => simp [horizontalCols]
  | cons p rest ih =>
    obtain ⟨c, xs⟩ := p
    unfold horizontalCols
    cases hf : fetchAll h c args with
    | error e =>
      have := fetchAll_ne_arity h c args
      rw [hf] at this
      simpa using this
    | ok series =>
      cases hh : horizontalCols g h args rest with
      | error e =>
        rw [hh] at ih
        simpa using ih
      | ok tail => simp

/-- C7: `min` and `max` signal the arity error exactly below 2 inputs:
with fewer than 2 input tables they raise it, and with 2 or more inputs
no arity error is ever raised. -/
theorem min_max_arity :
    (∀ args : List (WideTable Cell), args.length < 2 →
      max args = Except.error OpError.arity ∧
      min args = Except.error OpError.arity) ∧
    (∀ args : List (WideTable Cell), 2 ≤ args.length →
      max args ≠ Except.error OpError.arity ∧
      min args ≠ Except.error OpError.arity) := by
  constructor
  · intro args hlt
    constructor
    · unfold max
      rw [if_pos hlt]
    · unfold min
      rw [if_pos hlt]
  · intro args hge
    match args with
    | [] => simp at hge
    | x :: rest =>
      have hnlt : ¬(x :: rest).length < 2 := by omega
      constructor
      · unfold max
        rw [if_neg hnlt]
        cases hh : horizontalCols maxHorizontal (height x) (x :: rest) x.cols with
        | error e =>
          have hna := horizontalCols_ne_arity maxHorizontal (height x) (x :: rest) x.cols
          rw [hh] at hna
          simp only [hh]
          simpa using hna
        | ok cs =>
          simp only [hh]
          simp
      · unfold min
        rw [if_neg hnlt]
        cases hh : horizontalCols minHorizontal (height x) (x :: rest) x.cols with
        | error e =>
          have hna := horizontalCols_ne_arity minHorizontal (height x) (x :: rest) x.cols
          rw [hh] at hna
          simp only [hh]
          simpa using hna
        | ok cs =>
          simp only [hh]
          simp

/-- Witness for C7: one input errors with the arity error, two inputs do
not. -/
theorem min_max_arity_witness :
    max [(⟨[0], [("A", [some 1])]⟩ : WideTable Cell)] =
      Except.error OpError.arity ∧
    min [(⟨[0], [("A", [some 1])]⟩ : WideTable Cell),
         (⟨[0], [("A", [some 2])]⟩ : WideTable Cell)] ≠
      Except.error OpError.arity :=
  ⟨(min_max_arity.1 [⟨[0], [("A", [some 1])]⟩] (by decide)).1,
   (min_max_arity.2 [⟨[0], [("A", [some 1])]⟩, ⟨[0], [("A", [some 2])]⟩]
      (by decide)).2⟩

lemma zipFramesCols_ok (f : Cell → Cell → Cell) (h : Nat) (y : WideTable Cell) :
    ∀ cols : List (String × List Cell),
      (∀ p ∈ cols, ∃ ys, lookupCol y p.1 = some ys ∧ ys.length = h) →
      ∃ cs, zipFramesCols f h y cols = Except.ok cs := by
  intro cols
  induction cols with
  | nil => intro _; exact ⟨[], rfl⟩
  | cons p rest ih =>
    intro hc
    obtain ⟨c, xs⟩ := p
    obtain ⟨ys, hys, hlen⟩ := hc (c, xs) (List.mem_cons_self _ _)
    obtain ⟨tail, htail⟩ := ih (fun q hq => hc q (List.mem_cons_of_mem _ hq))
    refine ⟨(c, List.zipWith f xs ys) :: tail, ?_⟩
    have hal : alignSeries h ys = some ys := by
      unfold alignSeries
      rw [if_pos hlen]
    unfold zipFramesCols
    simp only [hys, hal, htail]

lemma zipFrames_ok (f : Cell → Cell → Cell) (x y : WideTable Cell)
    (hcols : ∀ p ∈ x.cols, ∃ ys, lookupCol y p.1 = some ys ∧
      ys.length = height x) :
    ∃ cs, zipFrames f x y = Except.ok ⟨x.dates, cs⟩ := by
  obtain ⟨cs, hcs⟩ := zipFramesCols_ok f (height x) y x.cols hcols
  exact ⟨cs, by unfold zipFrames; rw [hcs]⟩

lemma add_two (x y : WideTable Cell) (filter : Bool) :
    add [x, y] filter =
      match zipFrames (if filter then cellAddFilter else cellAdd) x y with
      | Except.error e => Except.error e
      | Except.ok r => Except.ok r := by
  have h2 : ¬([x, y].length < 2) := by simp
  unfold add
  rw [if_neg h2]
  show addFold filter x [y] = _
  unfold addFold
  cases hz : zipFrames (if filter then cellAddFilter else cellAdd) x y with
  | error e => simp [hz]
  | ok r => simp [hz, addFold]

/-- C2 (amended): `add` and `subtract` perform no shape validation at the
call boundary: whenever the second input has every value column of the
first (by name) at the first input's height, they return a positionally
combined result carried on the first input's date axis — even when the
date axes are incompatible.  Incompatible column sets or heights surface
as the underlying library's lookup/length errors, never as a dedicated
shape-mismatch signal. -/
theorem add_subtract_no_shape_validation (x y : WideTable Cell)
    (hcols : ∀ p ∈ x.cols, ∃ ys, lookupCol y p.1 = some ys ∧
      ys.length = height x) :
    (∃ t, add [x, y] false = Except.ok t ∧ t.dates = x.dates) ∧
    (∃ t, subtract x y false = Except.ok t ∧ t.dates = x.dates) := by
  obtain ⟨cs1, hz1⟩ :=
    zipFrames_ok (if false then cellAddFilter else cellAdd) x y hcols
  obtain ⟨cs2, hz2⟩ :=
    zipFrames_ok (if false then cellSubFilter else cellSub) x y hcols
  constructor
  · exact ⟨⟨x.dates, cs1⟩, by rw [add_two, hz1], rfl⟩
  · exact ⟨⟨x.dates, cs2⟩, by unfold subtract; rw [hz2], rfl⟩

/-- Counterexample for C2: two frames with disjoint date axes but equal
column names and heights; `add` silently returns the positional sums
under the first frame's dates instead of signalling any error. -/
theorem add_no_shape_check_counterexample :
    add [(⟨[0, 1], [("A", [some 1, some 2])]⟩ : WideTable Cell),
         (⟨[5, 6], [("A", [some 10, some 20])]⟩ : WideTable Cell)] false =
      Except.ok ⟨[0, 1], [("A", [some 11, some 22])]⟩ ∧
    (⟨[0, 1], [("A", [some 1, some 2])]⟩ : WideTable Cell).dates ≠
      (⟨[5, 6], [("A", [some 10, some 20])]⟩ : WideTable Cell).dates := by
  refine ⟨?_, by decide⟩
  rw [add_two]
  have hz : zipFrames (if false then cellAddFilter else cellAdd)
      (⟨[0, 1], [("A", [some 1, some 2])]⟩ : WideTable Cell)
      (⟨[5, 6], [("A", [some 10, some 20])]⟩ : WideTable Cell) =
      Except.ok ⟨[0, 1], [("A", [some 11, some 22])]⟩ := by
    norm_num [zipFrames, zipFramesCols, lookupCol, alignSeries, height,
      cellAdd]
  rw [hz]

/-- Witness for C2 (amended): the same mismatched-dates pair satisfies the
hypotheses, so `add` and `subtract` both return results. -/
theorem add_subtract_no_shape_validation_witness :
    (∃ t, add [(⟨[0, 1], [("A", [some 1, some 2])]⟩ : WideTable Cell),
               (⟨[5, 6], [("A", [some 10, some 20])]⟩ : WideTable Cell)]
        false = Except.ok t ∧ t.dates = [0, 1]) ∧
    (∃ t, subtract (⟨[0, 1], [("A", [some 1, some 2])]⟩ : WideTable Cell)
        (⟨[5, 6], [("A", [some 10, some 20])]⟩ : WideTable Cell) false =
        Except.ok t ∧ t.dates = [0, 1]) :=
  add_subtract_no_shape_validation
    ⟨[0, 1], [("A", [some 1, some 2])]⟩
    ⟨[5, 6], [("A", [some 10, some 20])]⟩
    (by
      intro p hp
      simp only [List.mem_singleton] at hp
      subst hp
      exact ⟨[some 10, some 20], rfl, rfl⟩)

lemma zipFramesCols_get? (f : Cell → Cell → Cell) (h : Nat)
    (y : WideTable Cell) :
    ∀ (cols cs : List (String × List Cell)) (j : Nat) (c : String)
      (xs : List Cell),
      zipFramesCols f h y cols = Except.ok cs →
      cols.get? j = some (c, xs) →
      ∃ ys ys2, lookupCol y c = some ys ∧ alignSeries h ys = some ys2 ∧
        cs.get? j = some (c, List.zipWith f xs ys2) := by
  intro cols
  induction cols with
  | nil =>
    intro cs j c xs hok hget
    simp at hget
  | cons p rest ih =>
    intro cs j c xs hok hget
    obtain ⟨c0, xs0⟩ := p
    unfold zipFramesCols at hok
    split at hok
    · exact absurd hok (by simp)
    · rename_i ys hl
      split at hok
      · exact absurd hok (by simp)
      · rename_i ys2 hal
        split at hok
        · exact absurd hok (by simp)
        · rename_i tail hrest
          obtain rfl : (c0, List.zipWith f xs0 ys2) :: tail = cs := by
            simpa using hok
          match j with
          | 0 =>
            have hpair : c0 = c ∧ xs0 = xs := by simpa using hget
            obtain ⟨rfl, rfl⟩ := hpair
            exact ⟨ys, ys2, hl, hal, by simp⟩
          | Nat.succ k =>
            obtain ⟨ys', ys2', h1, h2, h3⟩ :=
              ih tail k c xs hrest (by simpa using hget)
            exact ⟨ys', ys2', h1, h2, by simpa using h3⟩

/-- C4: for same-shaped inputs `divide` returns a result (a zero
denominator is not an error), and every cell whose denominator is zero is
null. -/
theorem divide_zero_denominator (x y t : WideTable Cell)
    (ht : divide x y = Except.ok t)
    (j i : Nat) (c : String) (xs ys : List Cell)
    (hx : x.cols.get? j = some (c, xs))
    (hxlen : xs.length = height x)
    (hy : lookupCol y c = some ys)
    (hylen : ys.length = height x)
    (hzero : ys.get? i = some (some 0)) :
    ∃ zs, t.cols.get? j = some (c, zs) ∧ zs.get? i = some none := by
  unfold divide zipFrames at ht
  cases hcs : zipFramesCols divideCell (height x) y x.cols with
  | error e =>
    rw [hcs] at ht
    exact absurd ht (by simp)
  | ok cs =>
    rw [hcs] at ht
    obtain rfl : ({dates := x.dates, cols := cs} : WideTable Cell) = t := by
      simpa using ht
    obtain ⟨ys', ys2, hl, hal, hget⟩ :=
      zipFramesCols_get? divideCell (height x) y x.cols cs j c xs hcs hx
    rw [hy] at hl
    have h1 : ys = ys' := by simpa using hl
    have halv : alignSeries (height x) ys' = some ys' := by
      unfold alignSeries
      rw [if_pos (h1 ▸ hylen)]
    rw [halv] at hal
    have h2 : ys' = ys2 := by simpa using hal
    refine ⟨List.zipWith divideCell xs ys2, hget, ?_⟩
    have hi : i < ys.length := by
      rcases List.get?_eq_some.mp hzero with ⟨hlt, _⟩
      exact hlt
    have hix : i < xs.length := by omega
    obtain ⟨a, ha⟩ : ∃ a, xs.get? i = some a :=
      ⟨xs.get ⟨i, hix⟩, List.get?_eq_get hix⟩
    have hz2 : ys2.get? i = some (some 0) := by
      rw [← h2, ← h1]
      exact hzero
    rw [List.get?_zipWith', ha, hz2]
    simp [divideCell]

/-- Witness for C4: dividing `[4]` by `[0]` returns a table whose only
cell is null. -/
theorem divide_zero_denominator_witness :
    ∃ zs, ((⟨[0], [("A", [none])]⟩ : WideTable Cell)).cols.get? 0 =
        some ("A", zs) ∧ zs.get? 0 = some none := by
  have ht : divide (⟨[0], [("A", [some 4])]⟩ : WideTable Cell)
      ⟨[0], [("A", [some 0])]⟩ = Except.ok ⟨[0], [("A", [none])]⟩ := by
    norm_num [divide, zipFrames, zipFramesCols, lookupCol, alignSeries,
      height, divideCell]
  exact divide_zero_denominator
    ⟨[0], [("A", [some 4])]⟩ ⟨[0], [("A", [some 0])]⟩
    ⟨[0], [("A", [none])]⟩ ht 0 0 "A" [some 4] [some 0]
    rfl rfl (by simp [lookupCol]) rfl rfl

/-! ## Time-series operators (time_series.py)

`ts_mean`/`ts_sum`/`ts_std`/`ts_min`/`ts_max` apply the polars
`rolling_*` aggregations per value column with window size `d` and the
default `min_periods = d`: a result cell is non-null exactly when the
trailing window holds `d` rows all of which are non-null; in particular
the first `d - 1` rows are always null. -/

/-- Mean of a full window. -/
def meanQ (l : List ℚ) : ℚ :=
  l.sum / l.length

/-- Sum of a full window. -/
def sumQ (l : List ℚ) : ℚ :=
  l.sum

/-- Sample variance (`ddof = 1`) of a full window.  `rolling_std` is the
pointwise square root of this quantity, which maps null to null and a
value to a value, so the null structure of `ts_std` is exactly that of
this cell.  (For a window of size 1 the denominator is zero; no claim
here evaluates that value.) -/
def sampleVarQ (l : List ℚ) : ℚ :=
  (l.map (fun v => (v - meanQ l) ^ 2)).sum / ((l.length : ℚ) - 1)

/-- Minimum of a full window. -/
def minQ : List ℚ → ℚ
  | [] => 0
  | h :: t => t.foldl Min.min h

/-- Maximum of a full window. -/
def maxQ : List ℚ → ℚ
  | [] => 0
  | h :: t => t.foldl Max.max h

/-- A polars rolling aggregation with window `d` and `min_periods = d`
over one column: row `i` is null when fewer than `d` rows of history
exist (`i + 1 < d`) or when the window contains a null, else the
statistic of the `d` window values. -/
def rollingApply (stat : List ℚ → ℚ) (d : Nat) (v : List Cell) : List Cell :=
  (List.range v.length).map (fun i =>
    if i + 1 < d then none
    else
      match ((v.drop (i + 1 - d)).take d).mapM id with
      | none => none
      | some w => some (stat w))

/-- Apply a per-column transform to every value column. -/
def mapCols (g : List Cell → List Cell) (x : WideTable Cell) :
    WideTable Cell :=
  ⟨x.dates, x.cols.map (fun p => (p.1, g p.2))⟩

/-- Models `ts_mean(x, d)`. -/
def ts_mean (x : WideTable Cell) (d : Nat) : WideTable Cell :=
  mapCols (rollingApply meanQ d) x

/-- Models `ts_sum(x, d)`. -/
def ts_sum (x : WideTable Cell) (d : Nat) : WideTable Cell :=
  mapCols (rollingApply sumQ d) x

/-- Models `ts_std(x, d)` (cells carry the rolling sample variance, see
`sampleVarQ`). -/
def ts_std (x : WideTable Cell) (d : Nat) : WideTable Cell :=
  mapCols (rollingApply sampleVarQ d) x

/-- Models `ts_min(x, d)`. -/
def ts_min (x : WideTable Cell) (d : Nat) : WideTable Cell :=
  mapCols (rollingApply minQ d) x

/-- Models `ts_max(x, d)`. -/
def ts_max (x : WideTable Cell) (d : Nat) : WideTable Cell :=
  mapCols (rollingApply maxQ d) x

lemma rollingApply_get?_head (stat : List ℚ → ℚ) (d : Nat) (v : List Cell)
    (i : Nat) (hi2 : i + 1 < d) (hlen : i < v.length) :
    (rollingApply stat d v).get? i = some none := by
  unfold rollingApply
  rw [List.get?_map, List.get?_range hlen]
  simp [hi2]

/-- C5: each rolling operator `ts_mean`, `ts_sum`, `ts_std`, `ts_min`,
`ts_max` with window size `d` is null in every value column at every row
index `i < d - 1` (fewer than `d` rows of history). -/
theorem rolling_null_head (x : WideTable Cell) (d i : Nat)
    (hd : 0 < d) (hi : i < d - 1) :
    (∀ p ∈ (ts_mean x d).cols, i < p.2.length → p.2.get? i = some none) ∧
    (∀ p ∈ (ts_sum x d).cols, i < p.2.length → p.2.get? i = some none) ∧
    (∀ p ∈ (ts_std x d).cols, i < p.2.length → p.2.get? i = some none) ∧
    (∀ p ∈ (ts_min x d).cols, i < p.2.length → p.2.get? i = some none) ∧
    (∀ p ∈ (ts_max x d).cols, i < p.2.length → p.2.get? i = some none) := by
  have key : ∀ (stat : List ℚ → ℚ) (p : String × List Cell),
      p ∈ (mapCols (rollingApply stat d) x).cols → i < p.2.length →
      p.2.get? i = some none := by
    intro stat p hp hlen
    obtain ⟨q, hq, rfl⟩ := List.mem_map.mp hp
    have hi2 : i + 1 < d := by omega
    have hlen2 : i < q.2.length := by
      simpa [rollingApply] using hlen
    exact rollingApply_get?_head stat d q.2 i hi2 hlen2
  exact ⟨key meanQ, key sumQ, key sampleVarQ, key minQ, key maxQ⟩

/-- Witness for C5: with `d = 3` the first output row of `ts_mean` over a
fully populated column is null. -/
theorem rolling_null_head_witness :
    (rollingApply meanQ 3 [some 1, some 2, some 3]).get? 0 = some none :=
  (rolling_null_head ⟨[0, 1, 2], [("A", [some 1, some 2, some 3])]⟩ 3 0
      (by norm_num) (by norm_num)).1
    ("A", rollingApply meanQ 3 [some 1, some 2, some 3])
    (by simp [ts_mean, mapCols])
    (by simp [rollingApply])

/-! ## Cross-sectional operators (cross_sectional.py) -/

/-- Row `i` of a wide table: one cell per value column (out-of-range
rows read as null; well-formed tables never hit that case). -/
def rowAt (t : WideTable Cell) (i : Nat) : List Cell :=
  t.cols.map (fun p => (p.2.get? i).join)

/-- One cell of the cross-sectional `rank`: the source unpivots, applies
`rank(method="ordinal", descending=not ascending)` within each date
partition and pivots back, so a non-null cell of column `j` receives
`1 +` the number of peers that strictly precede it (strictly smaller for
ascending, strictly larger for descending, or tied and at an earlier
column position); null cells stay null. -/
def rankCell (ascending : Bool) (row : List Cell) (j : Nat) : Cell :=
  match row.getD j none with
  | none => none
  | some v =>
    let cnt : Nat := (List.range row.length).countP (fun k =>
      match row.getD k none with
      | none => false
      | some w =>
        (if ascending then decide (w < v) else decide (v < w)) ||
          (decide (w = v) && decide (k < j)))
    some ((cnt + 1 : Nat) : ℚ)

/-- Models `rank(x, ascending=True)`: cross-sectional ordinal rank per row;
ranks run `1..N` over the non-null peers of the row. -/
def rank (x : WideTable Cell) (ascending : Bool) : WideTable Cell :=
  ⟨x.dates, x.cols.enum.map (fun q =>
    (q.2.1, (List.range q.2.2.length).map
      (fun i => rankCell ascending (rowAt x i) q.1)))⟩

/-- C1 (evidence for the code bug): on the single row `A=10, B=5, C=7`
the source's `rank` returns the ordinal ranks `3, 1, 2`.  The spec, the
repository's tests (`test_rank`) and the examples all require values in
`[0,1]` with the row minimum at `0` and the row maximum at `1`; the rank
`3` assigned to the row maximum exceeds `1`. -/
theorem rank_not_unit_interval :
    rank ⟨[0], [("A", [some 10]), ("B", [some 5]), ("C", [some 7])]⟩ true =
      ⟨[0], [("A", [some 3]), ("B", [some 1]), ("C", [some 2])]⟩ ∧
    ¬((3 : ℚ) ≤ 1) := by
  refine ⟨?_, by norm_num⟩
  decide

/-! ## scale (cross_sectional.py, lines 99-169) -/

/-- Absolute value of a cell as summed by `pl.sum_horizontal`: nulls are
skipped, i.e. contribute 0. -/
def absCell (c : Cell) : ℚ :=
  match c with
  | none => 0
  | some v => |v|

/-- Models `sum_horizontal` of the row's absolute values (`abs_sum`). -/
def rowAbsSum (t : WideTable Cell) (i : Nat) : ℚ :=
  ((rowAt t i).map absCell).sum

/-- Positive part of a cell (`when(col > 0).then(col).otherwise(0.0)`). -/
def posPart (c : Cell) : ℚ :=
  match c with
  | some v => if 0 < v then v else 0
  | none => 0

/-- Negated negative part of a cell
(`when(col < 0).then(-col).otherwise(0.0)`). -/
def negPart (c : Cell) : ℚ :=
  match c with
  | some v => if v < 0 then -v else 0
  | none => 0

/-- Models `long_sum`: sum of the row's positive values. -/
def rowLongSum (t : WideTable Cell) (i : Nat) : ℚ :=
  ((rowAt t i).map posPart).sum

/-- Models `short_sum`: sum of the row's absolute negative values. -/
def rowShortSum (t : WideTable Cell) (i : Nat) : ℚ :=
  ((rowAt t i).map negPart).sum

/-- Models `scale(x, scale=1.0, longscale=0.0, shortscale=0.0)`.  With
`longscale > 0 or shortscale > 0` the asymmetric branch rescales the
positive and negative cells separately (nulls fall through the `when`
chain to `otherwise(0.0)`); otherwise every cell is multiplied by
`scale / abs_sum` of its row.  (When a row's `abs_sum` is zero the
source's float division produces non-finite cells; the property proved
below only concerns rows holding a non-zero value, where `abs_sum` is
positive.) -/
def scale (x : WideTable Cell) (scale longscale shortscale : ℚ) :
    WideTable Cell :=
  if 0 < longscale ∨ 0 < shortscale then
    ⟨x.dates, x.cols.map (fun p => (p.1, (List.range p.2.length).map (fun i =>
      let lf : ℚ :=
        if 0 < rowLongSum x i then longscale / rowLongSum x i else 0
      let sf : ℚ :=
        if 0 < rowShortSum x i then shortscale / rowShortSum x i else 0
      match (p.2.get? i).join with
      | some v =>
        if 0 < v then some (v * lf)
        else if v < 0 then some (v * sf)
        else some 0
      | none => some 0)))⟩
  else
    ⟨x.dates, x.cols.map (fun p => (p.1, (List.range p.2.length).map (fun i =>
      ((p.2.get? i).join).map (fun v => v * scale / rowAbsSum x i))))⟩

lemma rowAt_scale_default (x : WideTable Cell) (s : ℚ) (i : Nat) :
    rowAt (scale x s 0 0) i =
      (rowAt x i).map (Option.map (fun v => v * s / rowAbsSum x i)) := by
  unfold scale
  rw [if_neg (by norm_num)]
  unfold rowAt
  rw [List.map_map, List.map_map]
  apply List.map_congr_left
  intro p _
  by_cases hi : i < p.2.length
  · simp [List.getElem?_range, hi, Option.join]
  · have h1 : p.2[i]? = none := List.getElem?_eq_none (by omega)
    have h2 : (List.range p.2.length)[i]? = none :=
      List.getElem?_eq_none (by simp; omega)
    simp [h1, h2, Option.join]

/-- C8: with `longscale` and `shortscale` at their defaults and a target
`s > 0`, every row of `scale(x, scale=s)` holding at least one non-null
non-zero cell has absolute sum exactly `s` (exact arithmetic). -/
theorem scale_row_abs_sum (x : WideTable Cell) (s : ℚ) (i : Nat)
    (hs : 0 < s)
    (hnz : ∃ c ∈ rowAt x i, ∃ v, c = some v ∧ v ≠ 0) :
    rowAbsSum (scale x s 0 0) i = s := by
  obtain ⟨c, hc, v, rfl, hv⟩ := hnz
  have habs_nonneg : ∀ q ∈ (rowAt x i).map absCell, 0 ≤ q := by
    intro q hq
    obtain ⟨c', _, rfl⟩ := List.mem_map.mp hq
    cases c' with
    | none => simp [absCell]
    | some w => simp [absCell, abs_nonneg]
  have hApos : 0 < rowAbsSum x i := by
    have h1 : absCell (some v) ≤ ((rowAt x i).map absCell).sum :=
      List.single_le_sum habs_nonneg _ (List.mem_map_of_mem _ hc)
    have h2 : 0 < absCell (some v) := by
      simp [absCell, abs_pos, hv]
    unfold rowAbsSum
    linarith
  have hcell : (absCell ∘ Option.map (fun w => w * s / rowAbsSum x i)) =
      fun c' => absCell c' * (s / rowAbsSum x i) := by
    funext c'
    cases c' with
    | none => simp [absCell]
    | some w =>
      simp only [Option.map_some', Function.comp_apply, absCell]
      rw [abs_div, abs_mul, abs_of_pos hs, abs_of_pos hApos]
      ring
  unfold rowAbsSum
  rw [rowAt_scale_default, List.map_map, hcell, List.sum_map_mul_right]
  show rowAbsSum x i * (s / rowAbsSum x i) = s
  rw [mul_comm, div_mul_cancel₀ s (ne_of_gt hApos)]

/-- Witness for C8: the row `[1, -3]` scaled to `s = 2` has absolute sum
exactly `2`. -/
theorem scale_row_abs_sum_witness :
    rowAbsSum
      (scale (⟨[0], [("A", [some 1]), ("B", [some (-3)])]⟩ : WideTable Cell)
        2 0 0) 0 = 2 :=
  scale_row_abs_sum ⟨[0], [("A", [some 1]), ("B", [some (-3)])]⟩ 2 0
    (by norm_num)
    ⟨some 1, by simp [rowAt], 1, rfl, one_ne_zero⟩

/-! ## bucket (transformational.py, lines 18-125)

A spec string (`range_spec` or `buckets`) is embedded as its comma-split
fields, each field carried as `some q` when Python `float` parses it to a
number and as `none` when `float` raises `ValueError`.  Exact rationals
stand in for the source's floats, including the `1e-9` walk tolerance. -/

/-- Errors of `bucket`: `InvalidBucketSpecError`, and the Python
`IndexError` hit by `boundaries[0]` / `boundaries[-1]` when the boundary
walk is empty (`start > end + 1e-9`) and the corresponding edge bucket is
not skipped. -/
inductive BucketError where
  | invalidSpec
  | indexError
  deriving Repr, DecidableEq

/-- Parsing of `range_spec`: exactly three fields, all numeric, are
destructured into `start, end, step`; a step not strictly positive is
rejected.  Every failure raises `InvalidBucketSpecError`. -/
def parseRange (ps : List (Option ℚ)) : Except BucketError (ℚ × ℚ × ℚ) :=
  match ps with
  | [some a, some b, some st] =>
    if st ≤ 0 then Except.error BucketError.invalidSpec
    else Except.ok (a, b, st)
  | _ => Except.error BucketError.invalidSpec

/-- The `[float(b.strip()) for b in buckets.split(",")]` comprehension:
`none` when any field fails to parse. -/
def parseFloats : List (Option ℚ) → Option (List ℚ)
  | [] => some []
  | none :: _ => none
  | some q :: rest => (parseFloats rest).map (fun qs => q :: qs)

/-- Parsing of `buckets`: all fields numeric and at least two of them. -/
def parseBuckets (ps : List (Option ℚ)) : Except BucketError (List ℚ) :=
  match parseFloats ps with
  | none => Except.error BucketError.invalidSpec
  | some qs =>
    if qs.length < 2 then Except.error BucketError.invalidSpec
    else Except.ok qs

/-- The walk tolerance `1e-9`. -/
def bucketEps : ℚ :=
  1 / 1000000000

/-- The boundary walk `val = start; while val <= end + 1e-9:
boundaries.append(val); val += step` in closed form (`step > 0` is
checked before the walk runs): iteration `i` appends `start + i * step`,
and the loop runs `⌊(end + 1e-9 - start) / step⌋ + 1` times when
`start ≤ end + 1e-9`, zero times otherwise. -/
def rangeBoundaries (start endv step : ℚ) : List ℚ :=
  if start ≤ endv + bucketEps then
    (List.range (Nat.floor ((endv + bucketEps - start) / step) + 1)).map
      (fun i => start + i * step)
  else []

/-- A bracket `(lower, upper]` with its index; `none` bounds stand for
the source's `float("-inf")` / `float("inf")`. -/
abbrev Bracket := Option ℚ × Option ℚ × Nat

/-- Models `lower < val <= upper` with infinite bounds always satisfied. -/
def inBracket (v : ℚ) (br : Bracket) : Bool :=
  (match br.1 with
   | none => true
   | some lo => decide (lo < v)) &&
  (match br.2.1 with
   | none => true
   | some hi => decide (v ≤ hi))

/-- The bracket list: hidden `(-inf, first]` bucket unless `skip_begin`,
the regular `(b_i, b_(i+1)]` buckets, hidden `[last, +inf)` bucket
unless `skip_end`; indices count in that order. -/
def buildBrackets (bs : List ℚ) (skipB skipE : Bool) : List Bracket :=
  (if skipB then [] else [(none, some bs.headI, 0)]) ++
  (List.range (bs.length - 1)).map
    (fun i => (some (bs.getD i 0), some (bs.getD (i + 1) 0),
      (if skipB then 0 else 1) + i)) ++
  (if skipE then []
   else [(some (bs.getLastD 0), none,
     (if skipB then 0 else 1) + (bs.length - 1))])

/-- Models `nan_idx = idx if NANGroup else None` after all brackets are built. -/
def nanIdxOf (bs : List ℚ) (skipB skipE NANGroup : Bool) : Option Nat :=
  if NANGroup then
    some ((if skipB then 0 else 1) + (bs.length - 1) +
      (if skipE then 0 else 1))
  else none

/-- First bracket containing the value, if any (`break` on first hit). -/
def assignBucket (brs : List Bracket) (v : ℚ) : Option Nat :=
  (brs.find? (fun br => inBracket v br)).map (fun br => br.2.2)

/-- One output cell of `bucket`: null/NaN cells get `nan_idx`, others the
index of the first containing bracket (null when none contains it). -/
def bucketCell (brs : List Bracket) (nanIdx : Option Nat) (c : Cell) :
    Option Int :=
  match c with
  | none => nanIdx.map (fun n => (n : Int))
  | some v => (assignBucket brs v).map (fun n => (n : Int))

/-- The per-cell assignment over the whole table, after the boundary list
exists.  `boundaries[0]` (read unless `skip_begin`) and `boundaries[-1]`
(read unless `skip_end`) raise `IndexError` on an empty boundary list. -/
def bucketTable (x : WideTable Cell) (bs : List ℚ)
    (skipB skipE NANGroup : Bool) :
    Except BucketError (WideTable (Option Int)) :=
  if bs.isEmpty && !(skipB && skipE) then Except.error BucketError.indexError
  else
    Except.ok ⟨x.dates, x.cols.map (fun p =>
      (p.1, p.2.map
        (bucketCell (buildBrackets bs skipB skipE)
          (nanIdxOf bs skipB skipE NANGroup))))⟩

/-- Models `bucket(x, range_spec, buckets, skipBegin, skipEnd, skipBoth,
NANGroup)`. -/
def bucket (x : WideTable Cell) (range_spec buckets : Option (List (Option ℚ)))
    (skipBegin skipEnd skipBoth NANGroup : Bool) :
    Except BucketError (WideTable (Option Int)) :=
  match range_spec, buckets with
  | none, none => Except.error BucketError.invalidSpec
  | some _, some _ => Except.error BucketError.invalidSpec
  | some ps, none =>
    match parseRange ps with
    | Except.error e => Except.error e
    | Except.ok (s, e2, st) =>
      bucketTable x (rangeBoundaries s e2 st) (skipBegin || skipBoth)
        (skipEnd || skipBoth) NANGroup
  | none, some ps =>
    match parseBuckets ps with
    | Except.error e => Except.error e
    | Except.ok bs =>
      bucketTable x bs (skipBegin || skipBoth) (skipEnd || skipBoth) NANGroup

/-- A malformed `range_spec` as the claim enumerates it: not of the form
`start,end,step` (wrong field count or a non-numeric field) or a
non-positive step. -/
def rangeSpecBad (ps : List (Option ℚ)) : Prop :=
  ps.length ≠ 3 ∨ none ∈ ps ∨ ∃ st : ℚ, ps.getD 2 none = some st ∧ st ≤ 0

/-- A malformed explicit `buckets` list: a non-numeric field or fewer
than two values. -/
def bucketsSpecBad (ps : List (Option ℚ)) : Prop :=
  none ∈ ps ∨ ps.length < 2

/-- The claim's enumeration of invalid bucket specifications. -/
def specInvalid (r b : Option (List (Option ℚ))) : Prop :=
  match r, b with
  | none, none => True
  | some _, some _ => True
  | some ps, none => rangeSpecBad ps
  | none, some ps => bucketsSpecBad ps

lemma bucketTable_ne_invalidSpec (x : WideTable Cell) (bs : List ℚ)
    (skipB skipE ng : Bool) :
    bucketTable x bs skipB skipE ng ≠ Except.error BucketError.invalidSpec := by
  unfold bucketTable
  split
  · simp
  · simp

lemma parseRange_error (ps : List (Option ℚ)) (e : BucketError)
    (hp : parseRange ps = Except.error e) : e = BucketError.invalidSpec := by
  unfold parseRange at hp
  split at hp
  · split at hp
    · have h1 : BucketError.invalidSpec = e := by simpa using hp
      exact h1.symm
    · exact absurd hp (by simp)
  · have h1 : BucketError.invalidSpec = e := by simpa using hp
    exact h1.symm

lemma parseRange_invalid_iff (ps : List (Option ℚ)) :
    parseRange ps = Except.error BucketError.invalidSpec ↔ rangeSpecBad ps := by
  rcases ps with _ | ⟨p1, _ | ⟨p2, _ | ⟨p3, _ | ⟨p4, rest⟩⟩⟩⟩
  · simp [parseRange, rangeSpecBad]
  · simp [parseRange, rangeSpecBad]
  · simp [parseRange, rangeSpecBad]
  · match p1, p2, p3 with
    | none, _, _ => simp [parseRange, rangeSpecBad]
    | some a, none, _ => simp [parseRange, rangeSpecBad]
    | some a, some b, none => simp [parseRange, rangeSpecBad]
    | some a, some b, some st =>
      by_cases hst : st ≤ 0
      · simp [parseRange, rangeSpecBad, hst, List.getD]
      · simp [parseRange, rangeSpecBad, hst, List.getD]
  · simp [parseRange, rangeSpecBad]

lemma parseFloats_eq_none_iff (ps : List (Option ℚ)) :
    parseFloats ps = none ↔ none ∈ ps := by
  induction ps with
  | nil => simp [parseFloats]
  | cons c rest ih =>
    cases c with
    | none => simp [parseFloats]
    | some q => simp [parseFloats, ih]

lemma parseFloats_length (ps : List (Option ℚ)) (qs : List ℚ)
    (hp : parseFloats ps = some qs) : qs.length = ps.length := by
  induction ps generalizing qs with
  | nil =>
    obtain rfl : [] = qs := by simpa [parseFloats] using hp
    rfl
  | cons c rest ih =>
    cases c with
    | none => simp [parseFloats] at hp
    | some q =>
      unfold parseFloats at hp
      cases hr : parseFloats rest with
      | none =>
        rw [hr] at hp
        simp at hp
      | some qs2 =>
        rw [hr] at hp
        obtain rfl : q :: qs2 = qs := by simpa using hp
        simp [ih qs2 hr]

lemma parseBuckets_invalid_iff (ps : List (Option ℚ)) :
    parseBuckets ps = Except.error BucketError.invalidSpec ↔
      bucketsSpecBad ps := by
  unfold bucketsSpecBad
  have hred : parseBuckets ps = (match parseFloats ps with
      | none => Except.error BucketError.invalidSpec
      | some qs =>
        if qs.length < 2 then Except.error BucketError.invalidSpec
        else Except.ok qs) := rfl
  cases hp : parseFloats ps with
  | none =>
    simp only [hred, hp]
    simp [(parseFloats_eq_none_iff ps).mp hp]
  | some qs =>
    simp only [hred, hp]
    have hne : ¬ (none ∈ ps) := by
      rw [← parseFloats_eq_none_iff, hp]
      simp
    have hlen := parseFloats_length ps qs hp
    by_cases h2 : qs.length < 2
    · rw [if_pos h2]
      have hps2 : ps.length < 2 := by omega
      simp [hps2]
    · rw [if_neg h2]
      simp [hne]
      omega

lemma parseBuckets_error (ps : List (Option ℚ)) (e : BucketError)
    (hp : parseBuckets ps = Except.error e) : e = BucketError.invalidSpec := by
  unfold parseBuckets at hp
  split at hp
  · have h1 : BucketError.invalidSpec = e := by simpa using hp
    exact h1.symm
  · split at hp
    · have h1 : BucketError.invalidSpec = e := by simpa using hp
      exact h1.symm
    · exact absurd hp (by simp)

/-- C6: `bucket` signals `InvalidBucketSpec` (returning no result) exactly
when the specification is invalid: neither or both of `range_spec` and
`buckets` given, a `range_spec` not of the form `start,end,step` or with
`step <= 0`, or an explicit `buckets` list with a non-numeric entry or
fewer than 2 values. -/
theorem bucket_invalid_spec (x : WideTable Cell)
    (r b : Option (List (Option ℚ))) (sb se sbo ng : Bool) :
    bucket x r b sb se sbo ng = Except.error BucketError.invalidSpec ↔
      specInvalid r b := by
  match r, b with
  | none, none => simp [bucket, specInvalid]
  | some ps, some ps2 => simp [bucket, specInvalid]
  | some ps, none =>
    show _ ↔ rangeSpecBad ps
    rw [← parseRange_invalid_iff]
    unfold bucket
    cases hp : parseRange ps with
    | error e =>
      have he := parseRange_error ps e hp
      subst he
      simp [hp]
    | ok trip =>
      obtain ⟨s, e2, st⟩ := trip
      have hbt := bucketTable_ne_invalidSpec x (rangeBoundaries s e2 st)
        (sb || sbo) (se || sbo) ng
      simp [hbt, hp]
  | none, some ps =>
    show _ ↔ bucketsSpecBad ps
    rw [← parseBuckets_invalid_iff]
    unfold bucket
    cases hp : parseBuckets ps with
    | error e =>
      have he := parseBuckets_error ps e hp
      subst he
      simp [hp]
    | ok bs =>
      have hbt := bucketTable_ne_invalidSpec x bs (sb || sbo) (se || sbo) ng
      simp [hbt, hp]

/-- Witness for C6: a missing specification errors, a well-formed
`range_spec` `0,10,5` does not. -/
theorem bucket_invalid_spec_witness :
    bucket (⟨[0], [("A", [some 7])]⟩ : WideTable Cell) none none
      false false false false = Except.error BucketError.invalidSpec ∧
    bucket (⟨[0], [("A", [some 7])]⟩ : WideTable Cell)
      (some [some 0, some 10, some 5]) none false false false false ≠
      Except.error BucketError.invalidSpec :=
  ⟨(bucket_invalid_spec ⟨[0], [("A", [some 7])]⟩ none none
      false false false false).mpr trivial,
   fun h => by
    have hbad := (bucket_invalid_spec ⟨[0], [("A", [some 7])]⟩
      (some [some 0, some 10, some 5]) none false false false false).mp h
    have : rangeSpecBad [some 0, some 10, some 5] := hbad
    rcases this with h1 | h2 | ⟨st, hst, hst0⟩
    · exact h1 rfl
    · simp at h2
    · obtain rfl : (5 : ℚ) = st := by simpa [List.getD] using hst
      norm_num at hst0⟩

lemma sorted_head_le_mem (h0 : ℚ) (t : List ℚ)
    (hs : (h0 :: t).Sorted (· ≤ ·)) (x : ℚ) (hx : x ∈ h0 :: t) :
    h0 ≤ x := by
  rw [List.sorted_cons] at hs
  rcases List.mem_cons.mp hx with rfl | hx2
  · exact le_refl x
  · exact hs.1 x hx2

lemma sorted_mem_le_getLastD (bs : List ℚ) :
    bs.Sorted (· ≤ ·) → ∀ x ∈ bs, x ≤ bs.getLastD 0 := by
  induction bs with
  | nil =>
    intro _ x hx
    cases hx
  | cons a t ih =>
    intro hs x hx
    rw [List.sorted_cons] at hs
    cases t with
    | nil =>
      obtain rfl : x = a := by simpa using hx
      show x ≤ x
      exact le_refl x
    | cons b t2 =>
      have hgl : (a :: b :: t2).getLastD 0 = (b :: t2).getLastD 0 := rfl
      rw [hgl]
      rcases List.mem_cons.mp hx with rfl | hx2
      · have h1 : x ≤ b := hs.1 b (by simp)
        have h2 : b ≤ (b :: t2).getLastD 0 := ih hs.2 b (by simp)
        exact le_trans h1 h2
      · exact ih hs.2 x hx2

lemma getLastD_mem (bs : List ℚ) (hne : bs ≠ []) : bs.getLastD 0 ∈ bs := by
  induction bs with
  | nil => exact absurd rfl hne
  | cons a t ih =>
    cases t with
    | nil => simp
    | cons b t2 =>
      have hgl : (a :: b :: t2).getLastD 0 = (b :: t2).getLastD 0 := rfl
      rw [hgl]
      exact List.mem_cons_of_mem a (ih (by simp))

lemma getD_mem (bs : List ℚ) (i : Nat) (hi : i < bs.length) :
    bs.getD i 0 ∈ bs := by
  rw [List.getD_eq_getElem bs 0 hi]
  exact List.getElem_mem hi

/-- C10: in `bucket`'s cell assignment, suppressing the head bucket makes
every non-null value at most the first boundary map to a null index
(never an error), and suppressing the tail bucket makes every non-null
value strictly above the last boundary map to null; boundaries are
ascending per the bucket contract. -/
theorem bucket_skip_out_of_range :
    (∀ (bs : List ℚ) (skipE : Bool) (ni : Option Nat) (v : ℚ),
      bs ≠ [] → bs.Sorted (· ≤ ·) → v ≤ bs.headI →
      bucketCell (buildBrackets bs true skipE) ni (some v) = none) ∧
    (∀ (bs : List ℚ) (skipB : Bool) (ni : Option Nat) (v : ℚ),
      bs ≠ [] → bs.Sorted (· ≤ ·) → bs.getLastD 0 < v →
      bucketCell (buildBrackets bs skipB true) ni (some v) = none) := by
  constructor
  · intro bs skipE ni v hne hs hv
    have hfind : ∀ br ∈ buildBrackets bs true skipE,
        ¬ (inBracket v br = true) := by
      intro br hbr
      unfold buildBrackets at hbr
      rw [if_pos rfl, List.nil_append, List.mem_append] at hbr
      obtain ⟨h0, t, rfl⟩ : ∃ h0 t, bs = h0 :: t := by
        cases bs with
        | nil => exact absurd rfl hne
        | cons a t => exact ⟨a, t, rfl⟩
      rcases hbr with hmid | htail
      · obtain ⟨i, hir, rfl⟩ := List.mem_map.mp hmid
        have hil : i < (h0 :: t).length := by
          have := List.mem_range.mp hir
          omega
        have hlo : h0 ≤ (h0 :: t).getD i 0 :=
          sorted_head_le_mem h0 t hs _ (getD_mem _ i hil)
        have hnl : ¬ ((h0 :: t).getD i 0 < v) := not_lt.mpr (hv.trans hlo)
        simp only [inBracket, Bool.and_eq_true, decide_eq_true_eq, not_and]
        intro hlt
        exact absurd hlt hnl
      · have hbr2 : br = (some ((h0 :: t).getLastD 0), none,
            (if (true : Bool) then 0 else 1) + ((h0 :: t).length - 1)) := by
          cases skipE with
          | true => simp at htail
          | false => simpa using htail
        subst hbr2
        have hlo : h0 ≤ (h0 :: t).getLastD 0 :=
          sorted_head_le_mem h0 t hs _ (getLastD_mem _ hne)
        have hnl : ¬ ((h0 :: t).getLastD 0 < v) := not_lt.mpr (hv.trans hlo)
        simp only [inBracket, Bool.and_true, decide_eq_true_eq]
        exact hnl
    show (assignBucket (buildBrackets bs true skipE) v).map
      (fun n => (n : Int)) = none
    unfold assignBucket
    rw [List.find?_eq_none.mpr hfind]
    rfl
  · intro bs skipB ni v hne hs hv
    have hfind : ∀ br ∈ buildBrackets bs skipB true,
        ¬ (inBracket v br = true) := by
      intro br hbr
      unfold buildBrackets at hbr
      rw [if_pos rfl, List.append_nil, List.mem_append] at hbr
      obtain ⟨h0, t, rfl⟩ : ∃ h0 t, bs = h0 :: t := by
        cases bs with
        | nil => exact absurd rfl hne
        | cons a t => exact ⟨a, t, rfl⟩
      rcases hbr with hhead | hmid
      · have hbr2 : br = (none, some (h0 :: t).headI, 0) := by
          cases skipB with
          | true => simp at hhead
          | false => simpa using hhead
        subst hbr2
        have hhi : (h0 :: t).headI ≤ (h0 :: t).getLastD 0 :=
          sorted_mem_le_getLastD _ hs _ (by simp)
        have hnh : ¬ (v ≤ (h0 :: t).headI) := not_le.mpr (hhi.trans_lt hv)
        simp only [inBracket, Bool.true_and, decide_eq_true_eq]
        exact hnh
      · obtain ⟨i, hir, rfl⟩ := List.mem_map.mp hmid
        have hihi : i + 1 < (h0 :: t).length := by
          have := List.mem_range.mp hir
          omega
        have hhi : (h0 :: t).getD (i + 1) 0 ≤ (h0 :: t).getLastD 0 :=
          sorted_mem_le_getLastD _ hs _ (getD_mem _ (i + 1) hihi)
        have hnh : ¬ (v ≤ (h0 :: t).getD (i + 1) 0) :=
          not_le.mpr (hhi.trans_lt hv)
        simp only [inBracket, Bool.and_eq_true, decide_eq_true_eq, not_and]
        intro _
        exact hnh
    show (assignBucket (buildBrackets bs skipB true) v).map
      (fun n => (n : Int)) = none
    unfold assignBucket
    rw [List.find?_eq_none.mpr hfind]
    rfl

/-- Witness for C10: with boundaries `0, 10`, a value `-5` is null when
the head bucket is skipped and `15` is null when the tail bucket is
skipped. -/
theorem bucket_skip_out_of_range_witness :
    bucketCell (buildBrackets [0, 10] true false) none (some (-5)) = none ∧
    bucketCell (buildBrackets [0, 10] false true) none (some 15) = none :=
  ⟨bucket_skip_out_of_range.1 [0, 10] false none (-5) (by simp)
      (by simp) (by norm_num),
   bucket_skip_out_of_range.2 [0, 10] false none 15 (by simp)
      (by simp) (by norm_num)⟩

end QuantDL
